import Mathlib

/-!
Verification development for the company-data entry tool (`webSearch.py`).

The program has two testable components:

* a field extractor, `parse_text` / `extract_optional_field`
  (webSearch.py lines 103-125), which pulls label-prefixed values out of
  raw text with `re.search(r"<Label>: (.+)", text)` (`re.DOTALL` for the
  Operations field) and `.strip()`s each captured value;
* a sheet store, `ensure_columns_exist` (lines 63-81) and `add_to_excel`
  (lines 127-143), which repairs the column set of a pandas table and
  appends a parsed record unless a row with the same Company Name exists.

Text is modelled as `List Char`.  A pandas `DataFrame` is modelled as a
list of column names plus rows of optional cells (`none` = NaN/None).
`re.search` with a pattern `<literal>(.+)` is modelled exactly: scan for
the leftmost position where the literal is a prefix and at least one
further (non-newline, unless DOTALL) character follows; the captured
group is the maximal such run of characters.
-/

abbrev Str := List Char

/-- Python `str.strip()` whitespace class (the ASCII part, which is all the
program's inputs use). -/
def pySpace (c : Char) : Bool :=
  c = ' ' || c = '\t' || c = '\n' || c = '\r' || c = '\x0b' || c = '\x0c'

/-- Python `str.strip()`: drop leading and trailing whitespace. -/
def stripChars (s : Str) : Str :=
  ((s.dropWhile pySpace).reverse.dropWhile pySpace).reverse

/-- The maximal run of non-newline characters at the head of `s`: what the
greedy `(.+)` (without `re.DOTALL`) captures once the literal has matched. -/
def takeLine : Str → Str
  | [] => []
  | c :: cs => if c = '\n' then [] else c :: takeLine cs

/-- Match of the pattern `<lit>(.+)` (no DOTALL) at the start of `s`:
the literal must be a prefix and at least one non-newline character must
follow; the capture is the rest of that line. -/
def matchAt (lit s : Str) : Option Str :=
  if lit.isPrefixOf s then
    if takeLine (s.drop lit.length) = [] then none
    else some (takeLine (s.drop lit.length))
  else none

/-- Match of the pattern `<lit>(.+)` with `re.DOTALL` at the start of `s`:
the capture is everything to the end of `s`, and must be non-empty. -/
def matchAtAll (lit s : Str) : Option Str :=
  if lit.isPrefixOf s then
    if s.drop lit.length = [] then none
    else some (s.drop lit.length)
  else none

/-- `re.search`'s scan: try the anchored matcher `f` at every position,
left to right, and return the first success. -/
def searchGen (f : Str → Option Str) : Str → Option Str
  | [] => none
  | c :: cs =>
    match f (c :: cs) with
    | some v => some v
    | none => searchGen f cs

/-- `re.search` for `<lit>(.+)` (no DOTALL): first position whose match
succeeds wins. -/
def searchText (lit : Str) (text : Str) : Option Str :=
  searchGen (matchAt lit) text

/-- `re.search` for `<lit>(.+)` with `re.DOTALL`. -/
def searchTextAll (lit : Str) (text : Str) : Option Str :=
  searchGen (matchAtAll lit) text

/-- The literal parts of the six mandatory patterns and three optional
patterns of `parse_text` (webSearch.py lines 106-116). -/
def litName : Str := "Company Name: ".data

def litPhone : Str := "Company Phone: ".data

def litEmail : Str := "Company Email: ".data

def litIndustry : Str := "Industry: ".data

def litType : Str := "Company Type: ".data

def litImpExp : Str := "Import/Export Activities: ".data

def litCountry : Str := "Company Country: ".data

def litWebsite : Str := "Company Website: ".data

def litOps : Str := "Company Operations: ".data

/-- The record built by `parse_text`: mandatory fields are strings,
optional fields are `Option` (Python `None` for a missing match). -/
structure Record where
  companyName : Str
  companyPhone : Str
  companyEmail : Option Str
  industry : Str
  companyType : Str
  importExport : Option Str
  companyCountry : Str
  companyWebsite : Option Str
  operations : Str
deriving DecidableEq, Repr

/-- `MainWindow.extract_optional_field` (webSearch.py lines 122-125):
optional value, `.strip()`ped, or `None` when the pattern finds nothing. -/
def extract_optional_field (lit text : Str) : Option Str :=
  (searchText lit text).map stripChars

/-- `MainWindow.parse_text` (webSearch.py lines 103-120).  Each mandatory
field is `re.search(...).group(1).strip()`; a failed mandatory search
raises `AttributeError`, caught and turned into `None` (the ParseError
outcome).  The Operations pattern is `r"Company Operations: (.+)"` with
`re.DOTALL`. -/
def parse_text (text : Str) : Option Record := do
  let n ← searchText litName text
  let p ← searchText litPhone text
  let i ← searchText litIndustry text
  let t ← searchText litType text
  let c ← searchText litCountry text
  let o ← searchTextAll litOps text
  pure { companyName := stripChars n
         companyPhone := stripChars p
         companyEmail := extract_optional_field litEmail text
         industry := stripChars i
         companyType := stripChars t
         importExport := extract_optional_field litImpExp text
         companyCountry := stripChars c
         companyWebsite := extract_optional_field litWebsite text
         operations := stripChars o }

/-! ## The sheet store

A pandas `DataFrame` read from the Excel file: a list of column names and
one list of cells per row, positionally aligned with the columns.  A cell
is `Option Str` (`none` = NaN / empty). -/

structure Sheet where
  columns : List String
  rows : List (List (Option Str))
deriving DecidableEq, Repr

/-- Index of the first column with a given name (`df["c"]` uses the first
matching column). -/
def colIdx (c : String) : List String → Option Nat
  | [] => none
  | d :: ds => if d = c then some 0 else (colIdx c ds).map (· + 1)

/-- Positional cell access; out-of-range reads as NaN. -/
def cellAt : List (Option Str) → Nat → Option Str
  | [], _ => none
  | x :: _, 0 => x
  | _ :: xs, n + 1 => cellAt xs n

/-- The cell of `row` in the column named `c`. -/
def getCell (cols : List String) (row : List (Option Str)) (c : String) :
    Option Str :=
  match colIdx c cols with
  | some i => cellAt row i
  | none => none

/-- `required_columns` of `ensure_columns_exist` (webSearch.py lines
65-69); the same nine names, in the same order, are the keys of the dict
built by `parse_text`. -/
def requiredColumns : List String :=
  ["Company Name", "Company Phone", "Company Email",
   "Industry", "Company Type", "Import/Export Activities",
   "Company Country", "Company Website", "Operations"]

/-- The value the parsed dict (and hence the appended `DataFrame` row)
holds for a column name: mandatory fields are strings, optional fields may
be `None`, and columns outside the dict get NaN. -/
def recordCell (r : Record) (c : String) : Option Str :=
  if c = "Company Name" then some r.companyName
  else if c = "Company Phone" then some r.companyPhone
  else if c = "Company Email" then r.companyEmail
  else if c = "Industry" then some r.industry
  else if c = "Company Type" then some r.companyType
  else if c = "Import/Export Activities" then r.importExport
  else if c = "Company Country" then some r.companyCountry
  else if c = "Company Website" then r.companyWebsite
  else if c = "Operations" then some r.operations
  else none

/-- The required columns missing from an existing column list, in
`required_columns` order (the loop of lines 73-75 appends them in this
order). -/
def missingCols (cols : List String) : List String :=
  requiredColumns.filter (fun c => !(decide (c ∈ cols)))

/-- `MainWindow.ensure_columns_exist` (webSearch.py lines 63-81) acting on
the persisted table: `none` models a nonexistent file.  On an existing
table each missing required column is appended (`df[column] = None` adds
it at the end, `None` in every existing row); on a missing file an empty
table with exactly the required columns is written. -/
def ensure_columns_exist : Option Sheet → Sheet
  | some s =>
      ⟨s.columns ++ missingCols s.columns,
       s.rows.map (fun row => row ++ List.replicate (missingCols s.columns).length none)⟩
  | none => ⟨requiredColumns, []⟩

inductive AddResult
  | inserted
  | duplicate
  | error
deriving DecidableEq, Repr

/-- `MainWindow.add_to_excel` (webSearch.py lines 127-143), returning the
outcome together with the persisted table afterwards.  `df["Company Name"]`
raises `KeyError` when the column is absent, caught as the error branch
(file untouched).  A row whose Company Name cell equals the record's name
(pandas `==`: exact string equality, NaN never equal) means duplicate, no
write.  Otherwise `pd.concat` appends: result columns are `df`'s columns
followed by the dict keys not already present, old rows get NaN in new
columns, and the new row holds the dict's value per column.
`adjust_excel_format` (lines 9-18) only rewrites cell alignment styling,
so it does not change the modelled table. -/
def add_to_excel (s : Sheet) (r : Record) : AddResult × Sheet :=
  if "Company Name" ∈ s.columns then
    if s.rows.any
        (fun row => decide (getCell s.columns row "Company Name" = some r.companyName)) then
      (.duplicate, s)
    else
      let newCols := s.columns ++ missingCols s.columns
      (.inserted,
       ⟨newCols,
        s.rows.map (fun row => row ++ List.replicate (missingCols s.columns).length none)
          ++ [newCols.map (recordCell r)]⟩)
  else (.error, s)

/-- The claim "the text contains the labeled line `<Label>: <value>`":
some position carries a successful match of the (non-DOTALL) pattern. -/
def containsLabeledLine (lit text : Str) : Prop :=
  ∃ n, (matchAt lit (text.drop n)).isSome

/-- As `containsLabeledLine`, for the DOTALL (Operations) pattern. -/
def containsLabeledTail (lit text : Str) : Prop :=
  ∃ n, (matchAtAll lit (text.drop n)).isSome

/-- `pat` occurs somewhere in `text` (as a plain substring, anywhere: the
patterns of `parse_text` are unanchored). -/
def occursIn (pat text : Str) : Prop :=
  ∃ n, pat <+: text.drop n

/-- The search for `lit` succeeds and its captured value has at least one
non-whitespace character (so that `.strip()` cannot empty it). -/
def goodSearch (lit text : Str) : Prop :=
  ∃ v, searchText lit text = some v ∧ v.any (fun c => !(pySpace c)) = true

/-- As `goodSearch`, for the DOTALL (Operations) pattern. -/
def goodSearchAll (lit text : Str) : Prop :=
  ∃ v, searchTextAll lit text = some v ∧ v.any (fun c => !(pySpace c)) = true

/-! ## Concrete inputs used to instantiate and refute the claims -/

/-- The scenario input from the documentation of the tool. -/
def sampleText : Str :=
  "Company Name: Acme\nCompany Phone: 555-1234\nIndustry: Tools\nCompany Type: LLC\nCompany Country: US\nCompany Operations: Makes anvils".data

/-- All six labeled lines present, but the Company Name value is a lone
space, which `.strip()` reduces to the empty string. -/
def wsText : Str :=
  "Company Name:  \nCompany Phone: 1\nIndustry: I\nCompany Type: T\nCompany Country: C\nCompany Operations: O".data

/-- The Company Name value carries a trailing blank and the text ends in a
newline, so the stored values differ from the raw line remainders. -/
def c5text : Str :=
  "Company Name: Acme \nCompany Phone: 1\nIndustry: I\nCompany Type: T\nCompany Country: C\nCompany Operations: O\n".data

/-- The record `parse_text` produces for `c5text`. -/
def c5rec : Record :=
  ⟨"Acme".data, "1".data, none, "I".data, "T".data, none, "C".data, none,
   "O".data⟩

/-- The first occurrence of the email label has nothing after it on its
line; a second occurrence carries a value. -/
def c9text : Str :=
  "Company Email: \nCompany Email: x@y".data

/-- An input with no "Industry" label anywhere. -/
def missingIndustryText : Str :=
  "Company Name: A\nCompany Phone: 1".data

/-- A record whose Company Name differs from `c5rec`'s only in letter
case. -/
def rLower : Record :=
  ⟨"acme".data, "1".data, none, "I".data, "T".data, none, "C".data, none,
   "O".data⟩

/-- A sheet with the nine required columns and one row holding `c5rec`. -/
def sheetWithAcme : Sheet :=
  ⟨requiredColumns, [requiredColumns.map (recordCell c5rec)]⟩

/-- A sheet whose only column is a pre-existing non-required one. -/
def extraSheet : Sheet :=
  ⟨["Extra"], [[some "x".data]]⟩

/-! ## Properties of the anchored matchers and the scan -/

theorem matchAt_eq_some {lit s v : Str} :
    matchAt lit s = some v ↔
      lit <+: s ∧ v = takeLine (s.drop lit.length) ∧ v ≠ [] := by
  unfold matchAt
  split_ifs with hp hv
  · rw [List.isPrefixOf_iff_prefix] at hp
    constructor
    · intro h; cases h
    · rintro ⟨-, hveq, hvne⟩; exact absurd (hveq.trans hv) hvne
  · rw [List.isPrefixOf_iff_prefix] at hp
    constructor
    · intro h
      injection h with h
      exact ⟨hp, h.symm, fun hveq => hv (h.trans hveq)⟩
    · rintro ⟨-, hveq, -⟩; rw [hveq]
  · rw [List.isPrefixOf_iff_prefix] at hp
    constructor
    · intro h; cases h
    · rintro ⟨hps, -, -⟩; exact absurd hps hp

theorem matchAtAll_eq_some {lit s v : Str} :
    matchAtAll lit s = some v ↔
      lit <+: s ∧ v = s.drop lit.length ∧ v ≠ [] := by
  unfold matchAtAll
  split_ifs with hp hv
  · rw [List.isPrefixOf_iff_prefix] at hp
    constructor
    · intro h; cases h
    · rintro ⟨-, hveq, hvne⟩; exact absurd (hveq.trans hv) hvne
  · rw [List.isPrefixOf_iff_prefix] at hp
    constructor
    · intro h
      injection h with h
      exact ⟨hp, h.symm, fun hveq => hv (h.trans hveq)⟩
    · rintro ⟨-, hveq, -⟩; rw [hveq]
  · rw [List.isPrefixOf_iff_prefix] at hp
    constructor
    · intro h; cases h
    · rintro ⟨hps, -, -⟩; exact absurd hps hp

theorem matchAt_eq_none {lit s : Str} :
    matchAt lit s = none ↔ ¬(lit <+: s ∧ takeLine (s.drop lit.length) ≠ []) := by
  constructor
  · rintro h ⟨hp, hv⟩
    have h2 : matchAt lit s = some (takeLine (s.drop lit.length)) :=
      matchAt_eq_some.mpr ⟨hp, rfl, hv⟩
    rw [h] at h2
    exact Option.noConfusion h2
  · intro h
    cases hm : matchAt lit s with
    | none => rfl
    | some v =>
        obtain ⟨hp, hv, hne⟩ := matchAt_eq_some.mp hm
        exact absurd ⟨hp, hv ▸ hne⟩ h

theorem matchAtAll_eq_none {lit s : Str} :
    matchAtAll lit s = none ↔ ¬(lit <+: s ∧ s.drop lit.length ≠ []) := by
  constructor
  · rintro h ⟨hp, hv⟩
    have h2 : matchAtAll lit s = some (s.drop lit.length) :=
      matchAtAll_eq_some.mpr ⟨hp, rfl, hv⟩
    rw [h] at h2
    exact Option.noConfusion h2
  · intro h
    cases hm : matchAtAll lit s with
    | none => rfl
    | some v =>
        obtain ⟨hp, hv, hne⟩ := matchAtAll_eq_some.mp hm
        exact absurd ⟨hp, hv ▸ hne⟩ h

theorem searchGen_eq_some {f : Str → Option Str} (hf : f [] = none) :
    ∀ {text v : Str}, searchGen f text = some v ↔
      ∃ n, f (text.drop n) = some v ∧ ∀ m, m < n → f (text.drop m) = none := by
  intro text
  induction text with
  | nil =>
      intro v
      constructor
      · intro h; exact Option.noConfusion h
      · rintro ⟨n, hn, -⟩
        rw [List.drop_nil, hf] at hn
        exact Option.noConfusion hn
  | cons c cs ih =>
      intro v
      cases hm : f (c :: cs) with
      | some w =>
          constructor
          · intro h
            simp only [searchGen, hm] at h
            exact ⟨0, by simpa [List.drop_zero, hm] using h, by omega⟩
          · rintro ⟨n, hn, hmin⟩
            cases n with
            | zero =>
                rw [List.drop_zero] at hn
                simp only [searchGen, hm]
                rw [hm] at hn
                exact hn
            | succ k =>
                have := hmin 0 (Nat.succ_pos k)
                rw [List.drop_zero, hm] at this
                exact Option.noConfusion this
      | none =>
          constructor
          · intro h
            simp only [searchGen, hm] at h
            obtain ⟨n, hn, hmin⟩ := ih.mp h
            refine ⟨n + 1, by rwa [List.drop_succ_cons], ?_⟩
            intro m hmlt
            cases m with
            | zero => rwa [List.drop_zero]
            | succ j =>
                rw [List.drop_succ_cons]
                exact hmin j (by omega)
          · rintro ⟨n, hn, hmin⟩
            simp only [searchGen, hm]
            cases n with
            | zero =>
                rw [List.drop_zero, hm] at hn
                exact Option.noConfusion hn
            | succ k =>
                rw [List.drop_succ_cons] at hn
                refine ih.mpr ⟨k, hn, ?_⟩
                intro m hmlt
                have := hmin (m + 1) (by omega)
                rwa [List.drop_succ_cons] at this



theorem occursIn_iff_substring {pat text : Str} :
    occursIn pat text ↔ pat <:+: text := by
  constructor
  · rintro ⟨n, hp⟩
    exact hp.isInfix.trans (List.drop_suffix n text).isInfix
  · rintro ⟨s, t, rfl⟩
    refine ⟨s.length, ?_⟩
    rw [List.append_assoc, List.drop_left]
    exact List.prefix_append pat t

theorem searchText_eq_none_of_not_occurs {lab lit text : Str}
    (hpre : lab <+: lit) (h : ¬ occursIn lab text) :
    searchText lit text = none := by
  cases hs : searchText lit text with
  | none => rfl
  | some v =>
      obtain ⟨n, hn, -⟩ :=
        (searchGen_eq_some (matchAt_eq_none.mpr (by simp [takeLine]))).mp hs
      obtain ⟨hp, -, -⟩ := matchAt_eq_some.mp hn
      exact absurd ⟨n, hpre.trans hp⟩ h

theorem searchTextAll_eq_none_of_not_occurs {lab lit text : Str}
    (hpre : lab <+: lit) (h : ¬ occursIn lab text) :
    searchTextAll lit text = none := by
  cases hs : searchTextAll lit text with
  | none => rfl
  | some v =>
      obtain ⟨n, hn, -⟩ :=
        (searchGen_eq_some (matchAtAll_eq_none.mpr (by simp))).mp hs
      obtain ⟨hp, -, -⟩ := matchAtAll_eq_some.mp hn
      exact absurd ⟨n, hpre.trans hp⟩ h

/-! ## Properties of `str.strip()` -/

theorem dropWhile_any {p q : Char → Bool} (hpq : ∀ c, p c → ¬ q c) :
    ∀ {l : Str}, l.any p → (l.dropWhile q).any p := by
  intro l
  induction l with
  | nil => intro h; cases h
  | cons c cs ih =>
      intro h
      rw [List.dropWhile_cons]
      by_cases hq : q c
      · rw [if_pos hq]
        apply ih
        rcases List.any_eq_true.mp h with ⟨x, hx, hpx⟩
        rcases List.mem_cons.mp hx with rfl | hx'
        · exact absurd hq (hpq x hpx)
        · exact List.any_eq_true.mpr ⟨x, hx', hpx⟩
      · rw [if_neg hq]
        exact h

theorem stripChars_ne_nil {v : Str} (h : v.any (fun c => !(pySpace c))) :
    stripChars v ≠ [] := by
  have hpq : ∀ c, (fun c => !(pySpace c)) c → ¬ pySpace c := by
    intro c hc
    simpa using hc
  have h1 : ((v.dropWhile pySpace).reverse.dropWhile pySpace).any
      (fun c => !(pySpace c)) := by
    apply dropWhile_any hpq
    rw [List.any_reverse]
    exact dropWhile_any hpq h
  intro hnil
  rw [stripChars, List.reverse_eq_nil_iff] at hnil
  rw [hnil] at h1
  cases h1

/-! ## Inversion of `parse_text` -/

theorem parse_text_eq_some {text : Str} {r : Record} :
    parse_text text = some r ↔
      ∃ vn vp vi vt vc vo,
        searchText litName text = some vn ∧
        searchText litPhone text = some vp ∧
        searchText litIndustry text = some vi ∧
        searchText litType text = some vt ∧
        searchText litCountry text = some vc ∧
        searchTextAll litOps text = some vo ∧
        r = ⟨stripChars vn, stripChars vp, extract_optional_field litEmail text,
             stripChars vi, stripChars vt, extract_optional_field litImpExp text,
             stripChars vc, extract_optional_field litWebsite text,
             stripChars vo⟩ := by
  constructor
  · intro h
    simp only [parse_text, bind, Option.bind_eq_some, pure] at h
    obtain ⟨vn, hn, vp, hp, vi, hi, vt, ht, vc, hc, vo, ho, hr⟩ := h
    injection hr with hr
    exact ⟨vn, vp, vi, vt, vc, vo, hn, hp, hi, ht, hc, ho, hr.symm⟩
  · rintro ⟨vn, vp, vi, vt, vc, vo, hn, hp, hi, ht, hc, ho, rfl⟩
    simp only [parse_text, bind, hn, hp, hi, ht, hc, ho, Option.some_bind, pure]

theorem parse_text_eq_none_of_name (h : searchText litName text = none) :
    parse_text text = none := by
  cases hp : parse_text text with
  | none => rfl
  | some r =>
      obtain ⟨vn, -, -, -, -, -, hn, -⟩ := parse_text_eq_some.mp hp
      rw [h] at hn
      cases hn

/-! ## Helper inversions for the search functions -/

theorem searchText_value {lit text v : Str} (h : searchText lit text = some v) :
    ∃ n, lit <+: text.drop n ∧
      v = takeLine ((text.drop n).drop lit.length) := by
  obtain ⟨n, hn, -⟩ :=
    (searchGen_eq_some (matchAt_eq_none.mpr (by simp [takeLine]))).mp h
  obtain ⟨hp, hv, -⟩ := matchAt_eq_some.mp hn
  exact ⟨n, hp, hv⟩

theorem searchTextAll_value {lit text v : Str} (h : searchTextAll lit text = some v) :
    ∃ n, lit <+: text.drop n ∧ v = (text.drop n).drop lit.length := by
  obtain ⟨n, hn, -⟩ :=
    (searchGen_eq_some (matchAtAll_eq_none.mpr (by simp))).mp h
  obtain ⟨hp, hv, -⟩ := matchAtAll_eq_some.mp hn
  exact ⟨n, hp, hv⟩

theorem containsLine_of_isSome {lit text : Str}
    (h : (searchText lit text).isSome) : containsLabeledLine lit text := by
  rw [Option.isSome_iff_exists] at h
  obtain ⟨v, hv⟩ := h
  obtain ⟨n, hn, -⟩ :=
    (searchGen_eq_some (matchAt_eq_none.mpr (by simp [takeLine]))).mp hv
  exact ⟨n, by rw [hn]; rfl⟩

theorem containsTail_of_isSome {lit text : Str}
    (h : (searchTextAll lit text).isSome) : containsLabeledTail lit text := by
  rw [Option.isSome_iff_exists] at h
  obtain ⟨v, hv⟩ := h
  obtain ⟨n, hn, -⟩ :=
    (searchGen_eq_some (matchAtAll_eq_none.mpr (by simp))).mp hv
  exact ⟨n, by rw [hn]; rfl⟩

/-! ## Claim C1 -/

/-- C1, counterexample.  `wsText` contains all six mandatory labeled
lines (each label followed by `": "` and at least one character), and
`parse_text` succeeds on it, yet the resulting Company Name is the empty
string: the captured value of the Company Name line is a lone blank,
which `.strip()` empties.  This refutes the claim that every mandatory
field of the result is non-empty whenever all six labeled lines are
present. -/
theorem C1_counterexample :
    (containsLabeledLine litName wsText ∧ containsLabeledLine litPhone wsText ∧
     containsLabeledLine litIndustry wsText ∧ containsLabeledLine litType wsText ∧
     containsLabeledLine litCountry wsText ∧ containsLabeledTail litOps wsText) ∧
    ∃ r, parse_text wsText = some r ∧ r.companyName = [] := by
  constructor
  · exact ⟨containsLine_of_isSome (by decide), containsLine_of_isSome (by decide),
      containsLine_of_isSome (by decide), containsLine_of_isSome (by decide),
      containsLine_of_isSome (by decide), containsTail_of_isSome (by decide)⟩
  · exact ⟨⟨[], "1".data, none, "I".data, "T".data, none, "C".data, none,
      "O".data⟩, by decide, rfl⟩

/-- C1, amended: for every input text in which each of the six mandatory
patterns has a successful search whose captured value contains at least
one non-whitespace character, `parse_text` succeeds and every mandatory
field of the resulting Record is non-empty. -/
theorem C1_amended (text : Str)
    (h1 : goodSearch litName text) (h2 : goodSearch litPhone text)
    (h3 : goodSearch litIndustry text) (h4 : goodSearch litType text)
    (h5 : goodSearch litCountry text) (h6 : goodSearchAll litOps text) :
    ∃ r, parse_text text = some r ∧
      r.companyName ≠ [] ∧ r.companyPhone ≠ [] ∧ r.industry ≠ [] ∧
      r.companyType ≠ [] ∧ r.companyCountry ≠ [] ∧ r.operations ≠ [] := by
  obtain ⟨vn, hn, hn'⟩ := h1
  obtain ⟨vp, hp, hp'⟩ := h2
  obtain ⟨vi, hi, hi'⟩ := h3
  obtain ⟨vt, ht, ht'⟩ := h4
  obtain ⟨vc, hc, hc'⟩ := h5
  obtain ⟨vo, ho, ho'⟩ := h6
  refine ⟨⟨stripChars vn, stripChars vp, extract_optional_field litEmail text,
      stripChars vi, stripChars vt, extract_optional_field litImpExp text,
      stripChars vc, extract_optional_field litWebsite text, stripChars vo⟩,
    parse_text_eq_some.mpr ⟨vn, vp, vi, vt, vc, vo, hn, hp, hi, ht, hc, ho, rfl⟩,
    stripChars_ne_nil hn', stripChars_ne_nil hp', stripChars_ne_nil hi',
    stripChars_ne_nil ht', stripChars_ne_nil hc', stripChars_ne_nil ho'⟩

/-- Witness for C1_amended at the documented scenario input. -/
theorem C1_amended_witness :
    ∃ r, parse_text sampleText = some r ∧
      r.companyName ≠ [] ∧ r.companyPhone ≠ [] ∧ r.industry ≠ [] ∧
      r.companyType ≠ [] ∧ r.companyCountry ≠ [] ∧ r.operations ≠ [] :=
  C1_amended sampleText
    ⟨"Acme".data, by decide, by decide⟩
    ⟨"555-1234".data, by decide, by decide⟩
    ⟨"Tools".data, by decide, by decide⟩
    ⟨"LLC".data, by decide, by decide⟩
    ⟨"US".data, by decide, by decide⟩
    ⟨"Makes anvils".data, by decide, by decide⟩

/-! ## Claim C2 -/

/-- C2: if any one of the six mandatory labels does not occur anywhere in
the input text, `parse_text` returns `none` (the ParseError outcome). -/
theorem C2 (text : Str)
    (h : ¬ occursIn "Company Name".data text ∨
         ¬ occursIn "Company Phone".data text ∨
         ¬ occursIn "Industry".data text ∨
         ¬ occursIn "Company Type".data text ∨
         ¬ occursIn "Company Country".data text ∨
         ¬ occursIn "Company Operations".data text) :
    parse_text text = none := by
  cases hp : parse_text text with
  | none => rfl
  | some r =>
      exfalso
      obtain ⟨vn, vp, vi, vt, vc, vo, hn, hph, hi, ht, hc, ho, -⟩ :=
        parse_text_eq_some.mp hp
      rcases h with h | h | h | h | h | h
      · have h2 : searchText litName text = none :=
          searchText_eq_none_of_not_occurs (by decide) h
        rw [h2] at hn; cases hn
      · have h2 : searchText litPhone text = none :=
          searchText_eq_none_of_not_occurs (by decide) h
        rw [h2] at hph; cases hph
      · have h2 : searchText litIndustry text = none :=
          searchText_eq_none_of_not_occurs (by decide) h
        rw [h2] at hi; cases hi
      · have h2 : searchText litType text = none :=
          searchText_eq_none_of_not_occurs (by decide) h
        rw [h2] at ht; cases ht
      · have h2 : searchText litCountry text = none :=
          searchText_eq_none_of_not_occurs (by decide) h
        rw [h2] at hc; cases hc
      · have h2 : searchTextAll litOps text = none :=
          searchTextAll_eq_none_of_not_occurs (by decide) h
        rw [h2] at ho; cases ho

/-- Witness for C2: an input with no "Industry" label fails to parse. -/
theorem C2_witness : parse_text missingIndustryText = none :=
  C2 missingIndustryText
    (Or.inr (Or.inr (Or.inl (by rw [occursIn_iff_substring]; decide))))

/-! ## Claim C5 -/

/-- C5, counterexample.  On `c5text` the remainder of the Company Name
line after the label is `"Acme "` (trailing blank) and the remainder of
the text after the Operations label is `"O\n"`, but the stored values are
`"Acme"` and `"O"`: `parse_text` applies `.strip()` to every captured
value, so the stored value is not the raw remainder the claim
describes. -/
theorem C5_counterexample :
    litName <+: c5text ∧
    takeLine (c5text.drop litName.length) = "Acme ".data ∧
    parse_text c5text = some c5rec ∧
    c5rec.companyName = "Acme".data ∧ c5rec.companyName ≠ "Acme ".data ∧
    c5rec.operations = "O".data ∧ c5rec.operations ≠ "O\n".data :=
  ⟨by decide, by decide, by decide, by decide, by decide, by decide, by decide⟩

/-- C5, amended: whenever `parse_text` succeeds, each mandatory field is
the whitespace-stripped remainder of a matched occurrence of its label:
for the five line fields, the rest of the line after `<Label>: `; for
Operations, the rest of the entire text after `Company Operations: `. -/
theorem C5_amended (text : Str) (r : Record) (h : parse_text text = some r) :
    (∃ n, litName <+: text.drop n ∧
       r.companyName = stripChars (takeLine ((text.drop n).drop litName.length))) ∧
    (∃ n, litPhone <+: text.drop n ∧
       r.companyPhone = stripChars (takeLine ((text.drop n).drop litPhone.length))) ∧
    (∃ n, litIndustry <+: text.drop n ∧
       r.industry = stripChars (takeLine ((text.drop n).drop litIndustry.length))) ∧
    (∃ n, litType <+: text.drop n ∧
       r.companyType = stripChars (takeLine ((text.drop n).drop litType.length))) ∧
    (∃ n, litCountry <+: text.drop n ∧
       r.companyCountry = stripChars (takeLine ((text.drop n).drop litCountry.length))) ∧
    (∃ n, litOps <+: text.drop n ∧
       r.operations = stripChars ((text.drop n).drop litOps.length)) := by
  obtain ⟨vn, vp, vi, vt, vc, vo, hn, hp2, hi, ht, hc, ho, rfl⟩ :=
    parse_text_eq_some.mp h
  obtain ⟨n1, hq1, hv1⟩ := searchText_value hn
  obtain ⟨n2, hq2, hv2⟩ := searchText_value hp2
  obtain ⟨n3, hq3, hv3⟩ := searchText_value hi
  obtain ⟨n4, hq4, hv4⟩ := searchText_value ht
  obtain ⟨n5, hq5, hv5⟩ := searchText_value hc
  obtain ⟨n6, hq6, hv6⟩ := searchTextAll_value ho
  exact ⟨⟨n1, hq1, by rw [← hv1]⟩, ⟨n2, hq2, by rw [← hv2]⟩,
    ⟨n3, hq3, by rw [← hv3]⟩, ⟨n4, hq4, by rw [← hv4]⟩,
    ⟨n5, hq5, by rw [← hv5]⟩, ⟨n6, hq6, by rw [← hv6]⟩⟩

/-- Witness for C5_amended at `c5text`. -/
theorem C5_amended_witness :
    ∃ n, litName <+: c5text.drop n ∧
      c5rec.companyName
        = stripChars (takeLine ((c5text.drop n).drop litName.length)) :=
  (C5_amended c5text c5rec (by decide)).1

/-! ## Claim C9 -/

/-- C9, counterexample.  In `c9text` the email label occurs first at
position 0 with an empty rest-of-line, and again later with value
`"x@y"`.  The claim says the extractor uses the first occurrence of
`<Label>: ` and takes its value from there, which would give the empty
value; the code skips occurrences with no following character and
returns `"x@y"` from the second occurrence. -/
theorem C9_counterexample :
    litEmail <+: c9text ∧
    takeLine (c9text.drop litEmail.length) = [] ∧
    extract_optional_field litEmail c9text = some "x@y".data ∧
    "x@y".data ≠ ([] : Str) :=
  ⟨by decide, by decide, by decide, by decide⟩

/-- C9, amended: label matching is by plain substring occurrence,
unanchored (any position `n`, including mid-line), and the extractor
returns the value of the first occurrence that is followed by at least
one value character - a non-newline character for the line patterns, any
character for the DOTALL (Operations) pattern - ignoring all later
occurrences; occurrences with no following value character are
skipped. -/
theorem C9_amended (lit text v : Str) :
    (searchText lit text = some v ↔
      ∃ n, (lit <+: text.drop n ∧
              v = takeLine ((text.drop n).drop lit.length) ∧ v ≠ []) ∧
        ∀ m, m < n →
          ¬(lit <+: text.drop m ∧ takeLine ((text.drop m).drop lit.length) ≠ [])) ∧
    (searchTextAll lit text = some v ↔
      ∃ n, (lit <+: text.drop n ∧ v = (text.drop n).drop lit.length ∧ v ≠ []) ∧
        ∀ m, m < n → ¬(lit <+: text.drop m ∧ (text.drop m).drop lit.length ≠ [])) := by
  constructor
  · rw [searchText, searchGen_eq_some (matchAt_eq_none.mpr (by simp [takeLine]))]
    constructor
    · rintro ⟨n, hn, hmin⟩
      exact ⟨n, matchAt_eq_some.mp hn, fun m hm => matchAt_eq_none.mp (hmin m hm)⟩
    · rintro ⟨n, hn, hmin⟩
      exact ⟨n, matchAt_eq_some.mpr hn, fun m hm => matchAt_eq_none.mpr (hmin m hm)⟩
  · rw [searchTextAll, searchGen_eq_some (matchAtAll_eq_none.mpr (by simp))]
    constructor
    · rintro ⟨n, hn, hmin⟩
      exact ⟨n, matchAtAll_eq_some.mp hn, fun m hm => matchAtAll_eq_none.mp (hmin m hm)⟩
    · rintro ⟨n, hn, hmin⟩
      exact ⟨n, matchAtAll_eq_some.mpr hn, fun m hm => matchAtAll_eq_none.mpr (hmin m hm)⟩

/-! ## Cell and column-index lemmas for the sheet model -/

theorem cellAt_replicate_none :
    ∀ (k i : Nat), cellAt (List.replicate k none) i = none := by
  intro k
  induction k with
  | zero => intro i; rfl
  | succ j ih =>
      intro i
      cases i with
      | zero => rfl
      | succ i' => exact ih i'

theorem cellAt_append_replicate :
    ∀ (row : List (Option Str)) (k i : Nat),
      cellAt (row ++ List.replicate k none) i = cellAt row i := by
  intro row
  induction row with
  | nil =>
      intro k i
      rw [List.nil_append]
      exact cellAt_replicate_none k i
  | cons x xs ih =>
      intro k i
      cases i with
      | zero => rfl
      | succ i' => exact ih k i'

theorem colIdx_append_of_mem {c : String} {cols : List String}
    (extra : List String) (h : c ∈ cols) :
    colIdx c (cols ++ extra) = colIdx c cols := by
  induction cols with
  | nil => cases h
  | cons d ds ih =>
      by_cases hd : d = c
      · simp [colIdx, hd]
      · rcases List.mem_cons.mp h with rfl | h'
        · exact absurd rfl hd
        · simp only [List.cons_append, colIdx, if_neg hd]
          exact congrArg (Option.map fun x => x + 1) (ih h')

theorem getCell_append_pad {c : String} {cols : List String}
    (extra : List String) (row : List (Option Str)) (k : Nat) (h : c ∈ cols) :
    getCell (cols ++ extra) (row ++ List.replicate k none) c
      = getCell cols row c := by
  unfold getCell
  rw [colIdx_append_of_mem extra h]
  cases colIdx c cols with
  | none => rfl
  | some i => exact cellAt_append_replicate row k i

theorem colIdx_some_of_mem {c : String} {cols : List String} (h : c ∈ cols) :
    ∃ i, colIdx c cols = some i := by
  induction cols with
  | nil => cases h
  | cons d ds ih =>
      by_cases hd : d = c
      · exact ⟨0, by simp [colIdx, hd]⟩
      · rcases List.mem_cons.mp h with rfl | h'
        · exact absurd rfl hd
        · obtain ⟨i, hi⟩ := ih h'
          exact ⟨i + 1, by simp [colIdx, hd, hi]⟩

theorem colIdx_lt_length {c : String} :
    ∀ {cols : List String} {i : Nat}, colIdx c cols = some i → i < cols.length := by
  intro cols
  induction cols with
  | nil => intro i h; cases h
  | cons d ds ih =>
      intro i h
      by_cases hd : d = c
      · simp only [colIdx, if_pos hd] at h
        injection h with h
        rw [← h]
        simp
      · simp only [colIdx, if_neg hd] at h
        cases hj : colIdx c ds with
        | none => rw [hj] at h; cases h
        | some j =>
            rw [hj] at h
            injection h with h
            have := ih hj
            rw [← h]
            simp only [List.length_cons]
            omega

theorem colIdx_append_right {c : String} {cols extra : List String} {i : Nat}
    (hc : c ∉ cols) (hi : colIdx c extra = some i) :
    colIdx c (cols ++ extra) = some (cols.length + i) := by
  induction cols with
  | nil => simpa using hi
  | cons d ds ih =>
      have hd : d ≠ c := fun h => hc (h ▸ List.mem_cons_self d ds)
      have hds : c ∉ ds := fun h => hc (List.mem_cons_of_mem d h)
      simp only [List.cons_append, colIdx, if_neg hd, List.append_eq]
      rw [ih hds]
      show some (ds.length + i + 1) = some ((d :: ds).length + i)
      congr 1
      show ds.length + i + 1 = ds.length + 1 + i
      omega

theorem cellAt_append_len :
    ∀ (row pad : List (Option Str)) (i : Nat),
      cellAt (row ++ pad) (row.length + i) = cellAt pad i := by
  intro row
  induction row with
  | nil => intro pad i; simp [cellAt]
  | cons x xs ih =>
      intro pad i
      have hlen : (x :: xs).length + i = (xs.length + i) + 1 := by
        simp only [List.length_cons]; omega
      rw [hlen]
      exact ih pad i

theorem getCell_cons {d c : String} {ds : List String} {x : Option Str}
    {row : List (Option Str)} :
    getCell (d :: ds) (x :: row) c = if d = c then x else getCell ds row c := by
  by_cases hd : d = c
  · simp [getCell, colIdx, hd, cellAt]
  · simp only [getCell, colIdx, if_neg hd]
    cases hj : colIdx c ds with
    | none => rfl
    | some i => rfl

theorem getCell_map_self {c : String} {cols : List String}
    (f : String → Option Str) (h : c ∈ cols) :
    getCell cols (cols.map f) c = f c := by
  induction cols with
  | nil => cases h
  | cons d ds ih =>
      rw [List.map_cons, getCell_cons]
      by_cases hd : d = c
      · rw [if_pos hd, hd]
      · rw [if_neg hd]
        rcases List.mem_cons.mp h with rfl | h'
        · exact absurd rfl hd
        · exact ih h'

theorem missingCols_eq_nil {cols : List String}
    (h : ∀ c ∈ requiredColumns, c ∈ cols) : missingCols cols = [] := by
  rw [missingCols, List.filter_eq_nil_iff]
  intro a ha
  simp [h a ha]

theorem required_mem_ensure (x : Option Sheet) :
    ∀ c ∈ requiredColumns, c ∈ (ensure_columns_exist x).columns := by
  intro c hc
  cases x with
  | none => exact hc
  | some s =>
      show c ∈ s.columns ++ missingCols s.columns
      rw [List.mem_append]
      by_cases hs : c ∈ s.columns
      · exact Or.inl hs
      · refine Or.inr (List.mem_filter.mpr ⟨hc, ?_⟩)
        simp [hs]

/-! ## Claim C3 -/

/-- C3: appending a record whose Company Name equals the Company Name
cell of some existing row returns Duplicate and leaves the persisted
sheet exactly as it was (no write occurs). -/
theorem C3 (s : Sheet) (r : Record) (hc : "Company Name" ∈ s.columns)
    (hdup : ∃ row ∈ s.rows,
      getCell s.columns row "Company Name" = some r.companyName) :
    add_to_excel s r = (.duplicate, s) := by
  have hany : s.rows.any
      (fun row =>
        decide (getCell s.columns row "Company Name" = some r.companyName))
      = true := by
    obtain ⟨row, hrow, heq⟩ := hdup
    exact List.any_eq_true.mpr ⟨row, hrow, decide_eq_true heq⟩
  unfold add_to_excel
  rw [if_pos hc]
  simp [hany]

/-- Witness for C3: re-adding the record already present in
`sheetWithAcme` is reported Duplicate and the sheet is unchanged. -/
theorem C3_witness : add_to_excel sheetWithAcme c5rec = (.duplicate, sheetWithAcme) :=
  C3 sheetWithAcme c5rec (by decide)
    ⟨requiredColumns.map (recordCell c5rec), by decide, by decide⟩

/-! ## Claim C4 -/

/-- C4: appending a record whose Company Name matches no existing row
returns Inserted; the sheet keeps its columns, gains exactly one row at
the end (so the row count grows by 1) while all pre-existing rows are
untouched, and every cell of the new row holds the record's value for
its column (`none` for absent optional fields). -/
theorem C4 (s : Sheet) (r : Record)
    (hsub : ∀ c ∈ requiredColumns, c ∈ s.columns)
    (hnew : ∀ row ∈ s.rows,
      getCell s.columns row "Company Name" ≠ some r.companyName) :
    add_to_excel s r
      = (.inserted, ⟨s.columns, s.rows ++ [s.columns.map (recordCell r)]⟩) ∧
    (s.rows ++ [s.columns.map (recordCell r)]).length = s.rows.length + 1 ∧
    ∀ c ∈ s.columns,
      getCell s.columns (s.columns.map (recordCell r)) c = recordCell r c := by
  have hc : "Company Name" ∈ s.columns := hsub _ (by decide)
  have hmiss : missingCols s.columns = [] := missingCols_eq_nil hsub
  have hany : s.rows.any
      (fun row =>
        decide (getCell s.columns row "Company Name" = some r.companyName))
      = false := by
    rw [List.any_eq_false]
    intro row hrow
    simpa using hnew row hrow
  refine ⟨?_, by simp, fun c hc2 => getCell_map_self (recordCell r) hc2⟩
  unfold add_to_excel
  rw [if_pos hc]
  simp [hany, hmiss, List.map_id']

/-- Witness for C4: inserting into the empty sheet with the required
columns appends exactly the record's row. -/
theorem C4_witness :
    add_to_excel ⟨requiredColumns, []⟩ c5rec
      = (.inserted,
         ⟨requiredColumns, [] ++ [requiredColumns.map (recordCell c5rec)]⟩) :=
  (C4 ⟨requiredColumns, []⟩ c5rec (by decide) (by decide)).1

/-! ## Claim C6 -/

/-- C6: on an existing table, `ensure_columns_exist` appends exactly the
missing required columns, pads every existing row with `none` in those
columns, and changes nothing else - every pre-existing column is kept
(the old column list is a prefix of the new one) and every cell of every
pre-existing row in every pre-existing column reads the same; on a
nonexistent file it creates the empty table whose columns are exactly
the nine required ones. -/
theorem C6 (s : Sheet) (hwf : ∀ row ∈ s.rows, row.length = s.columns.length) :
    ((ensure_columns_exist (some s)).columns
        = s.columns ++ missingCols s.columns ∧
     (ensure_columns_exist (some s)).rows
        = s.rows.map
            (fun row => row ++ List.replicate (missingCols s.columns).length none) ∧
     (∀ row ∈ s.rows, ∀ c ∈ s.columns,
        getCell (ensure_columns_exist (some s)).columns
          (row ++ List.replicate (missingCols s.columns).length none) c
          = getCell s.columns row c) ∧
     (∀ row ∈ s.rows, ∀ c ∈ requiredColumns, c ∉ s.columns →
        getCell (ensure_columns_exist (some s)).columns
          (row ++ List.replicate (missingCols s.columns).length none) c
          = none)) ∧
    (ensure_columns_exist none = ⟨requiredColumns, []⟩ ∧
     (ensure_columns_exist none).rows = []) := by
  have hcols : (ensure_columns_exist (some s)).columns
      = s.columns ++ missingCols s.columns := rfl
  refine ⟨⟨rfl, rfl, ?_, ?_⟩, rfl, rfl⟩
  · intro row hrow c hc
    rw [hcols]
    exact getCell_append_pad _ row _ hc
  · intro row hrow c hc hnot
    have hm : c ∈ missingCols s.columns :=
      List.mem_filter.mpr ⟨hc, by simp [hnot]⟩
    obtain ⟨j, hj⟩ := colIdx_some_of_mem hm
    have hcol : colIdx c (s.columns ++ missingCols s.columns)
        = some (s.columns.length + j) := colIdx_append_right hnot hj
    rw [hcols]
    unfold getCell
    rw [hcol, ← hwf row hrow]
    show cellAt (row ++ List.replicate (missingCols s.columns).length none)
        (row.length + j) = none
    rw [cellAt_append_len]
    exact cellAt_replicate_none _ j

/-- Witness for C6 at a sheet with a single non-required column. -/
theorem C6_witness :
    (ensure_columns_exist (some extraSheet)).columns
      = extraSheet.columns ++ missingCols extraSheet.columns :=
  (C6 extraSheet (by decide)).1.1

/-! ## Claim C7 -/

/-- C7: `ensure_columns_exist` is idempotent - applying it to its own
output (an existing file) returns that output unchanged, whatever the
starting table (including the nonexistent-file case). -/
theorem C7 (x : Option Sheet) :
    ensure_columns_exist (some (ensure_columns_exist x))
      = ensure_columns_exist x := by
  have hmiss : missingCols (ensure_columns_exist x).columns = [] :=
    missingCols_eq_nil (required_mem_ensure x)
  show (⟨(ensure_columns_exist x).columns ++ missingCols (ensure_columns_exist x).columns,
        (ensure_columns_exist x).rows.map
          (fun row =>
            row ++ List.replicate (missingCols (ensure_columns_exist x).columns).length none)⟩
      : Sheet) = ensure_columns_exist x
  rw [hmiss]
  simp [List.map_id']

/-! ## Claim C8 -/

/-- C8, counterexample: starting from a sheet whose only column is the
pre-existing "Extra", `ensure_columns_exist` produces the header
`"Extra"` followed by the nine required columns - the pre-existing
column comes first, not after the required ones as the claim states. -/
theorem C8_counterexample :
    (ensure_columns_exist (some extraSheet)).columns
        = "Extra" :: requiredColumns ∧
    (ensure_columns_exist (some extraSheet)).columns
        ≠ requiredColumns ++ ["Extra"] :=
  ⟨by decide, by decide⟩

/-- C8, amended: the header produced by `ensure_columns_exist` is the
pre-existing columns, in their original order, followed by the missing
required columns in the fixed required order; only for a nonexistent
file is it exactly the nine required columns in the fixed order. -/
theorem C8_amended :
    (∀ s : Sheet, (ensure_columns_exist (some s)).columns
        = s.columns ++ missingCols s.columns) ∧
    (ensure_columns_exist none).columns = requiredColumns :=
  ⟨fun _ => rfl, rfl⟩

/-! ## Claim C10 -/

/-- C10: the duplicate check compares Company Name cells with exact
string equality, so a record whose name differs from every existing
row's name in any way (letter case included) is inserted, not reported
Duplicate. -/
theorem C10 (s : Sheet) (r : Record) (hc : "Company Name" ∈ s.columns)
    (hnew : ∀ row ∈ s.rows,
      getCell s.columns row "Company Name" ≠ some r.companyName) :
    (add_to_excel s r).1 = .inserted := by
  have hany : s.rows.any
      (fun row =>
        decide (getCell s.columns row "Company Name" = some r.companyName))
      = false := by
    rw [List.any_eq_false]
    intro row hrow
    simpa using hnew row hrow
  unfold add_to_excel
  rw [if_pos hc]
  simp [hany]

/-- Witness for C10: `rLower` differs from the stored "Acme" only in
case and is inserted rather than flagged as duplicate. -/
theorem C10_witness : (add_to_excel sheetWithAcme rLower).1 = .inserted :=
  C10 sheetWithAcme rLower (by decide) (by decide)
